import Mathlib

/-!
Verification of the SOUL compiler front-end specification against the code.

Each section shallowly embeds the part of the repository a claim is about
(`soul_ResolutionPass.h`, `soul_HeartGenerator.h`, `soul_SanityCheckPass.h`,
`soul_Parser.h`) and proves or refutes the claim.  Definitions follow the
source; helpers that live in files outside the provided sources are modelled
from the specification and say so in their doc comments.
-/

namespace Soul

/-! ## Types

The `soul::Type` class is not among the provided sources; only its query
methods (`isConst`, `isPrimitive`, `isBoundedInt`) are called from them.
Modelled from the spec §3 "Type system": a type has a category (primitive,
bounded-int `wrap<N>`/`clamp<N>`, vector, array, struct, string-literal) plus
`const` and reference modifier flags. -/

inductive PrimitiveKind where
  | bool_ | int32 | int64 | float32 | float64 | void_
  deriving DecidableEq, Repr

inductive TypeCategory where
  | primitive (p : PrimitiveKind)
  | wrap (limit : Nat)
  | clamp (limit : Nat)
  | vector (size : Nat)
  | sizedArray (size : Nat)
  | unsizedArray
  | structure_ (id : Nat)
  | stringLiteral
  deriving DecidableEq, Repr

structure SoulType where
  category : TypeCategory
  isConstFlag : Bool
  isRefFlag : Bool
  deriving DecidableEq, Repr

def SoulType.isConst (t : SoulType) : Bool := t.isConstFlag

def SoulType.isPrimitive (t : SoulType) : Bool :=
  match t.category with
  | .primitive _ => true
  | _ => false

def SoulType.isBoundedInt (t : SoulType) : Bool :=
  match t.category with
  | .wrap _ => true
  | .clamp _ => true
  | _ => false

/-! ## C5: lowering of state-scope variable declarations

Embedding of `HEARTGenerator::visit (AST::VariableDeclaration&)`
(`soul_HeartGenerator.h` lines 793-822), restricted to the
`parsingStateVariables` branch that the claim is about. -/

/-- The fields of `AST::VariableDeclaration` consulted by the state-variable
branch of `HEARTGenerator::visit (AST::VariableDeclaration&)`. -/
structure VariableDeclaration where
  isExternal : Bool
  declType : SoulType
  numWrites : Nat
  numReads : Nat
  deriving DecidableEq, Repr

/-- Roles of `heart::Variable` (spec §3, HEART IR entities). -/
inductive HeartVarRole where
  | param | state | extState | mutLocal | constLocal
  deriving DecidableEq, Repr

/-- Embedding of the `parsingStateVariables` branch of
`HEARTGenerator::visit (AST::VariableDeclaration&)`
(`soul_HeartGenerator.h:797-813`): externals always get a state-variable
record with the external role; otherwise a record with the state role is
pushed unless the type is const, or the variable has zero writes and a
primitive or bounded-int type.  `none` means no state-variable record is
created in the HEART module. -/
def stateVariableRecordFor (v : VariableDeclaration) : Option HeartVarRole :=
  if v.isExternal then
    some .extState
  else if v.declType.isConst || (v.numWrites == 0 && (v.declType.isPrimitive || v.declType.isBoundedInt)) then
    none
  else
    some .state

/-- C5: an external variable is always emitted as a state variable with the
external role; every other variable is emitted with the state role unless its
type is const, or it has zero recorded writes and a primitive or bounded-int
type, in which case no state-variable record is created for it. -/
theorem stateVariable_lowering_characterisation (v : VariableDeclaration) :
    (v.isExternal = true → stateVariableRecordFor v = some .extState)
    ∧ (v.isExternal = false →
        ((stateVariableRecordFor v = none) ↔
          (v.declType.isConst = true
            ∨ (v.numWrites = 0
                ∧ (v.declType.isPrimitive = true ∨ v.declType.isBoundedInt = true)))))
    ∧ (v.isExternal = false →
        ¬ (v.declType.isConst = true
            ∨ (v.numWrites = 0
                ∧ (v.declType.isPrimitive = true ∨ v.declType.isBoundedInt = true))) →
        stateVariableRecordFor v = some .state) := by
  refine ⟨fun h => by simp [stateVariableRecordFor, h], ?_, ?_⟩ <;>
  · intros
    cases hc : v.declType.isConst <;> cases hp : v.declType.isPrimitive <;>
      cases hb : v.declType.isBoundedInt <;> by_cases hw : v.numWrites = 0 <;>
      simp_all [stateVariableRecordFor]

/-- Witness for C5 at concrete inputs: an external variable gets the external
role, and a written, non-const `float32` variable gets the state role. -/
theorem stateVariable_lowering_characterisation_witness :
    stateVariableRecordFor ⟨true, ⟨.primitive .float32, false, false⟩, 0, 0⟩ = some .extState
    ∧ stateVariableRecordFor ⟨false, ⟨.primitive .float32, false, false⟩, 2, 1⟩ = some .state := by
  constructor
  · exact (stateVariable_lowering_characterisation ⟨true, ⟨.primitive .float32, false, false⟩, 0, 0⟩).1 rfl
  · exact (stateVariable_lowering_characterisation ⟨false, ⟨.primitive .float32, false, false⟩, 2, 1⟩).2.2 rfl
      (by decide)

/-! ## C8: parse-time rewriting of short-circuit logical operators

Embedding of `StructuralParser::parseLogicalOr` / `parseLogicalAnd`
(`soul_Parser.h` lines 1133-1163).  Each loop iteration that sees `||`
(resp. `&&`) allocates an `AST::TernaryOp` whose condition is the expression
parsed so far, with a constant `true` (resp. `false`) in the branch that the
operator's semantics fix. -/

/-- Just enough of the expression AST for the rewrite: boolean constants,
opaque operands (identified by a number), and the ternary operator. -/
inductive PExpr where
  | boolConst (b : Bool)
  | atom (n : Nat)
  | ternary (cond trueBranch falseBranch : PExpr)
  deriving DecidableEq, Repr

/-- One `||` step of `StructuralParser::parseLogicalOr`
(`soul_Parser.h:1139-1144`): builds `a ? true : b`. -/
def parseLogicalOrStep (a b : PExpr) : PExpr :=
  .ternary a (.boolConst true) b

/-- One `&&` step of `StructuralParser::parseLogicalAnd`
(`soul_Parser.h:1155-1160`): builds `a ? b : false`. -/
def parseLogicalAndStep (a b : PExpr) : PExpr :=
  .ternary a b (.boolConst false)

/-- The parser's left-associative loop over a chain of `||` operands. -/
def parseLogicalOrChain (a : PExpr) (rest : List PExpr) : PExpr :=
  rest.foldl parseLogicalOrStep a

/-- The parser's left-associative loop over a chain of `&&` operands. -/
def parseLogicalAndChain (a : PExpr) (rest : List PExpr) : PExpr :=
  rest.foldl parseLogicalAndStep a

/-- Evaluation of the rewritten tree, instrumented with the list of operand
atoms that are actually evaluated, in order.  A ternary evaluates its
condition and then only the selected branch. -/
def evalWithTrace (env : Nat → Bool) : PExpr → Bool × List Nat
  | .boolConst b => (b, [])
  | .atom n => (env n, [n])
  | .ternary c t f =>
    let rc := evalWithTrace env c
    if rc.1 then
      let rt := evalWithTrace env t
      (rt.1, rc.2 ++ rt.2)
    else
      let rf := evalWithTrace env f
      (rf.1, rc.2 ++ rf.2)

/-- C8: the parser rewrites `a || b` to the ternary `(a ? true : b)` and
`a && b` to `(a ? b : false)`; under ternary evaluation the rewritten trees
compute exactly boolean or / and of the operands, and the right-hand operand
is evaluated exactly when the left-hand operand does not already decide the
result (`a` false for `||`, `a` true for `&&`). -/
theorem shortCircuit_rewrite_equivalent (env : Nat → Bool) (a b : PExpr) :
    parseLogicalOrStep a b = .ternary a (.boolConst true) b
    ∧ parseLogicalAndStep a b = .ternary a b (.boolConst false)
    ∧ (evalWithTrace env (parseLogicalOrStep a b)).1
        = ((evalWithTrace env a).1 || (evalWithTrace env b).1)
    ∧ (evalWithTrace env (parseLogicalAndStep a b)).1
        = ((evalWithTrace env a).1 && (evalWithTrace env b).1)
    ∧ (evalWithTrace env (parseLogicalOrStep a b)).2
        = (evalWithTrace env a).2
            ++ (if (evalWithTrace env a).1 then [] else (evalWithTrace env b).2)
    ∧ (evalWithTrace env (parseLogicalAndStep a b)).2
        = (evalWithTrace env a).2
            ++ (if (evalWithTrace env a).1 then (evalWithTrace env b).2 else []) := by
  refine ⟨rfl, rfl, ?_, ?_, ?_, ?_⟩ <;>
    · simp only [parseLogicalOrStep, parseLogicalAndStep, evalWithTrace]
      rcases Bool.eq_false_or_eq_true (evalWithTrace env a).1 with h | h <;>
        simp [h, evalWithTrace]

/-! ## C7: pre-resolution overall-structure check

Embedding of `SanityCheckPass::checkOverallStructureOfProcessor`
(`soul_SanityCheckPass.h` lines 255-293). -/

/-- The fields of `AST::Function` consulted by the overall-structure check. -/
structure SCFunction where
  isRunFunction : Bool
  returnTypeIsVoid : Bool
  numParameters : Nat
  deriving DecidableEq, Repr

inductive SanityErr where
  | processorNeedsAnOutput
  | runFunctionMustBeVoid
  | runFunctionHasParams
  | processorNeedsRunFunction
  | multipleRunFunctions
  deriving DecidableEq, Repr

/-- An `AST::ProcessorBase`: `isProcessor = true` models an `AST::Processor`,
`false` an `AST::Graph` (for which the `cast<AST::Processor>` in the source
fails, so only the output check applies). -/
structure ProcessorBase where
  isProcessor : Bool
  numOutputs : Nat
  functions : List SCFunction
  deriving DecidableEq, Repr

/-- The run-function loop of `checkOverallStructureOfProcessor`
(`soul_SanityCheckPass.h:270-285`): walks the functions, throwing at the
first run function that is non-void or has parameters, and otherwise counts
the run functions. -/
def countRunFunctionsChecked : List SCFunction → Nat → Except SanityErr Nat
  | [], n => .ok n
  | f :: fs, n =>
    if f.isRunFunction then
      if ¬ f.returnTypeIsVoid then .error .runFunctionMustBeVoid
      else if f.numParameters ≠ 0 then .error .runFunctionHasParams
      else countRunFunctionsChecked fs (n + 1)
    else countRunFunctionsChecked fs n

/-- Embedding of `SanityCheckPass::checkOverallStructureOfProcessor`
(`soul_SanityCheckPass.h:264-293`). -/
def checkOverallStructureOfProcessor (p : ProcessorBase) : Except SanityErr Unit :=
  if p.numOutputs = 0 then .error .processorNeedsAnOutput
  else if p.isProcessor then
    match countRunFunctionsChecked p.functions 0 with
    | .error e => .error e
    | .ok n =>
      if n = 0 then .error .processorNeedsRunFunction
      else if n > 1 then .error .multipleRunFunctions
      else .ok ()
  else .ok ()

/-- The condition under which the claim says the check must reject. -/
def overallStructureBad (p : ProcessorBase) : Prop :=
  p.numOutputs = 0
  ∨ (p.isProcessor = true
      ∧ (p.functions.countP (fun f => f.isRunFunction) ≠ 1
          ∨ ∃ f ∈ p.functions, f.isRunFunction = true
              ∧ (f.returnTypeIsVoid = false ∨ f.numParameters ≠ 0)))

instance (p : ProcessorBase) : Decidable (overallStructureBad p) := by
  unfold overallStructureBad; infer_instance

theorem countRunFunctionsChecked_ok_iff (fs : List SCFunction) (n : Nat) :
    (∃ m, countRunFunctionsChecked fs n = .ok m) ↔
      ∀ f ∈ fs, f.isRunFunction = true →
        (f.returnTypeIsVoid = true ∧ f.numParameters = 0) := by
  induction fs generalizing n with
  | nil => simp [countRunFunctionsChecked]
  | cons f fs ih =>
    cases hr : f.isRunFunction <;>
      cases hv : f.returnTypeIsVoid <;>
      by_cases hp : f.numParameters = 0 <;>
      simp_all [countRunFunctionsChecked, ih]

theorem countRunFunctionsChecked_ok_val (fs : List SCFunction) :
    ∀ n m, countRunFunctionsChecked fs n = .ok m →
      m = n + fs.countP (fun f => f.isRunFunction) := by
  induction fs with
  | nil =>
    intro n m h
    simp only [countRunFunctionsChecked] at h
    cases h
    simp
  | cons f fs ih =>
    intro n m h
    rw [List.countP_cons]
    cases hr : f.isRunFunction
    · simp only [countRunFunctionsChecked, hr, Bool.false_eq_true, if_false] at h
      have := ih n m h
      simp [List.countP_cons, hr]
      omega
    · cases hv : f.returnTypeIsVoid
      · simp [countRunFunctionsChecked, hr, hv] at h
      · by_cases hp : f.numParameters = 0
        · simp only [countRunFunctionsChecked, hr, hv, Bool.not_true, not_true_eq_false,
            Bool.false_eq_true, if_false, if_true, hp, ne_eq, not_false_eq_true, ite_not] at h
          have := ih (n + 1) m h
          simp [List.countP_cons, hr]
          omega
        · simp [countRunFunctionsChecked, hr, hv, hp] at h

/-- C7: the overall-structure check raises an error if and only if the module
has no output endpoint, or it is a processor whose number of run functions is
not exactly one or that has a run function that is non-void or takes
parameters; a module satisfying all the requirements passes the check. -/
theorem overallStructure_check_characterisation (p : ProcessorBase) :
    ((∃ e, checkOverallStructureOfProcessor p = .error e) ↔ overallStructureBad p)
    ∧ ((checkOverallStructureOfProcessor p = .ok ()) ↔ ¬ overallStructureBad p) := by
  have main : (∃ e, checkOverallStructureOfProcessor p = .error e) ↔ overallStructureBad p := by
    constructor
    · rintro ⟨e, he⟩
      by_cases ho : p.numOutputs = 0
      · exact Or.inl ho
      cases hip : p.isProcessor
      · simp [checkOverallStructureOfProcessor, ho, hip] at he
      · refine Or.inr ⟨hip, ?_⟩
        rcases hrun : countRunFunctionsChecked p.functions 0 with e' | n
        · right
          by_contra hall
          push_neg at hall
          have hex : ∃ m, countRunFunctionsChecked p.functions 0 = .ok m := by
            rw [countRunFunctionsChecked_ok_iff]
            intro f hf hr
            have h2 := hall f hf hr
            rcases Bool.eq_false_or_eq_true f.returnTypeIsVoid with hv | hv
            · exact ⟨hv, h2.2⟩
            · exact absurd hv h2.1
          rw [hrun] at hex
          exact absurd hex.choose_spec (by simp)
        · left
          have hn := countRunFunctionsChecked_ok_val _ _ _ hrun
          simp [checkOverallStructureOfProcessor, ho, hip, hrun] at he
          by_cases h0 : n = 0
          · omega
          by_cases h1 : n > 1
          · omega
          · simp [h0, h1] at he
    · intro hbad
      rcases hbad with ho | ⟨hip, hbad⟩
      · exact ⟨.processorNeedsAnOutput, by simp [checkOverallStructureOfProcessor, ho]⟩
      by_cases ho : p.numOutputs = 0
      · exact ⟨.processorNeedsAnOutput, by simp [checkOverallStructureOfProcessor, ho]⟩
      rcases hrun : countRunFunctionsChecked p.functions 0 with e' | n
      · exact ⟨e', by simp [checkOverallStructureOfProcessor, ho, hip, hrun]⟩
      · have hall := (countRunFunctionsChecked_ok_iff p.functions 0).mp ⟨n, hrun⟩
        have hn := countRunFunctionsChecked_ok_val _ _ _ hrun
        have hcount : p.functions.countP (fun f => f.isRunFunction) ≠ 1 := by
          rcases hbad with h | ⟨f, hf, hr, hbadf⟩
          · exact h
          · rcases hbadf with hv | hp2
            · exact absurd (hall f hf hr).1 (by simp [hv])
            · exact absurd (hall f hf hr).2 hp2
        by_cases h0 : n = 0
        · exact ⟨.processorNeedsRunFunction, by simp [checkOverallStructureOfProcessor, ho, hip, hrun, h0]⟩
        · have h1 : n > 1 := by omega
          exact ⟨.multipleRunFunctions,
            by simp [checkOverallStructureOfProcessor, ho, hip, hrun, h0, Nat.lt_iff_add_one_le, h1]⟩
  refine ⟨main, ?_⟩
  constructor
  · intro hok hbad
    rcases main.mpr hbad with ⟨e, he⟩
    rw [hok] at he
    cases he
  · intro hbad
    rcases hcheck : checkOverallStructureOfProcessor p with e | u
    · exact absurd (main.mp ⟨e, hcheck⟩) hbad
    · cases u; rfl

/-- Witness for C7: a processor with one output and a single void, no-parameter
run function passes; a processor with two run functions is rejected. -/
theorem overallStructure_check_characterisation_witness :
    checkOverallStructureOfProcessor ⟨true, 1, [⟨true, true, 0⟩, ⟨false, true, 2⟩]⟩ = .ok ()
    ∧ overallStructureBad ⟨true, 1, [⟨true, true, 0⟩, ⟨true, true, 0⟩]⟩ := by
  constructor
  · exact (overallStructure_check_characterisation
      ⟨true, 1, [⟨true, true, 0⟩, ⟨false, true, 2⟩]⟩).2.mpr (by decide)
  · exact (overallStructure_check_characterisation
      ⟨true, 1, [⟨true, true, 0⟩, ⟨true, true, 0⟩]⟩).1.mp
      ⟨.multipleRunFunctions, rfl⟩

/-! ## Overload candidates (shared by C1 and C10)

Embedding of `ResolutionPass::FunctionResolver::PossibleFunction`
(`soul_ResolutionPass.h` lines 1344-1380) and
`findAllPossibleFunctions` (lines 1401-1432).

`TypeRules::canPassAsArgumentTo (targetType, sourceType, mustBeExact)` lives
in a file that is not among the provided sources; it is taken as an abstract
boolean function parameter throughout. -/

/-- The fields of `AST::Function` consulted by the function resolver.  Each
parameter carries its `isResolved()` flag and its resolved type.
`originalGeneric` models the `orginalGenericFunction` back-link that is set on
clones produced by generic specialisation. -/
structure FnDecl where
  fnId : Nat
  name : Nat
  isGenericFn : Bool
  isRunFn : Bool
  params : List (Bool × SoulType)
  originalGeneric : Option Nat
  deriving DecidableEq, Repr

/-- A candidate with the classification flags computed by the
`PossibleFunction` constructor. -/
structure PossibleFunction where
  fn : FnDecl
  isImpossible : Bool
  requiresCast : Bool
  requiresGeneric : Bool
  deriving DecidableEq, Repr

def PossibleFunction.isExactMatch (f : PossibleFunction) : Bool :=
  ! (f.isImpossible || f.requiresCast || f.requiresGeneric)

/-- Embedding of the `PossibleFunction` constructor
(`soul_ResolutionPass.h:1347-1372`): per argument, a generic function's
unresolved parameter marks `requiresGeneric`; otherwise an argument that
passes exactly leaves the flags alone, one that cannot pass at all marks
`isImpossible` (and `requiresCast`), and one that passes only loosely marks
`requiresCast`. -/
def mkPossibleFunction (canPass : SoulType → SoulType → Bool → Bool)
    (f : FnDecl) (argTypes : List SoulType) : PossibleFunction :=
  let flags := (f.params.zip argTypes).foldl
    (fun (acc : Bool × Bool × Bool) (pa : (Bool × SoulType) × SoulType) =>
      if f.isGenericFn && ! pa.1.1 then (acc.1, acc.2.1, true)
      else if canPass pa.1.2 pa.2 true then acc
      else if ! canPass pa.1.2 pa.2 false then (true, true, acc.2.2)
      else (acc.1, true, acc.2.2))
    (false, false, false)
  ⟨f, flags.1, flags.2.1, flags.2.2⟩

/-- Embedding of `FunctionResolver::findAllPossibleFunctions`
(`soul_ResolutionPass.h:1401-1432`).  The scope-chain name search
(`AST::Scope::performFullNameSearch` with `findFunctions` only and
`requiredNumFunctionArgs` set, plus the intrinsics namespace for unqualified
names) is modelled as the list of function declarations it yields, filtered
here by name and arity as the search does; the source then keeps only
functions whose `orginalGenericFunction` back-link is null. -/
def findAllPossibleFunctions (canPass : SoulType → SoulType → Bool → Bool)
    (scopeFunctions : List FnDecl) (callName : Nat) (argTypes : List SoulType) :
    List PossibleFunction :=
  (scopeFunctions.filter
      (fun f => f.name == callName
        && f.params.length == argTypes.length
        && f.originalGeneric.isNone)).map
    (fun f => mkPossibleFunction canPass f argTypes)

/-- C10: every candidate considered by the overload search has a null
original-generic-function back-link, and enlarging the scope by any set of
specialised clones (functions whose back-link is set) leaves the candidate
list of every call unchanged, so clones can never participate in or make
ambiguous the resolution of another call. -/
theorem candidateSearch_excludes_specialisations
    (canPass : SoulType → SoulType → Bool → Bool)
    (scopeFunctions clones : List FnDecl) (callName : Nat) (argTypes : List SoulType)
    (hclones : ∀ c ∈ clones, c.originalGeneric ≠ none) :
    (∀ pf ∈ findAllPossibleFunctions canPass scopeFunctions callName argTypes,
        pf.fn.originalGeneric = none)
    ∧ findAllPossibleFunctions canPass (scopeFunctions ++ clones) callName argTypes
        = findAllPossibleFunctions canPass scopeFunctions callName argTypes := by
  constructor
  · intro pf hpf
    simp only [findAllPossibleFunctions, List.mem_map, List.mem_filter] at hpf
    obtain ⟨f, ⟨_, hflags⟩, rfl⟩ := hpf
    have h3 := (Bool.and_eq_true_iff.mp hflags).2
    simpa [Option.isNone_iff_eq_none] using h3
  · simp only [findAllPossibleFunctions, List.filter_append]
    have hke : clones.filter
        (fun f => f.name == callName
          && f.params.length == argTypes.length
          && f.originalGeneric.isNone) = [] := by
      rw [List.filter_eq_nil_iff]
      intro c hc
      have := hclones c hc
      simp [Option.isNone_iff_eq_none, this]
    rw [hke, List.append_nil]

/-- Witness for C10 at a concrete scope: a specialised clone of `swap` does
not appear among the candidates even after it is added to the scope. -/
theorem candidateSearch_excludes_specialisations_witness :
    (∀ pf ∈ findAllPossibleFunctions (fun _ _ _ => true)
        [⟨0, 7, true, false, [(false, ⟨.primitive .float32, false, true⟩)], none⟩,
         ⟨1, 7, false, false, [(true, ⟨.primitive .float32, false, true⟩)], some 0⟩]
        7 [⟨.primitive .float32, false, false⟩],
      pf.fn.originalGeneric = none)
    ∧ findAllPossibleFunctions (fun _ _ _ => true)
        ([⟨0, 7, true, false, [(false, ⟨.primitive .float32, false, true⟩)], none⟩]
          ++ [⟨1, 7, false, false, [(true, ⟨.primitive .float32, false, true⟩)], some 0⟩])
        7 [⟨.primitive .float32, false, false⟩]
      = findAllPossibleFunctions (fun _ _ _ => true)
        [⟨0, 7, true, false, [(false, ⟨.primitive .float32, false, true⟩)], none⟩]
        7 [⟨.primitive .float32, false, false⟩] := by
  constructor
  · intro pf hpf
    exact (candidateSearch_excludes_specialisations (fun _ _ _ => true)
      [⟨0, 7, true, false, [(false, ⟨.primitive .float32, false, true⟩)], none⟩,
       ⟨1, 7, false, false, [(true, ⟨.primitive .float32, false, true⟩)], some 0⟩]
      [] 7 [⟨.primitive .float32, false, false⟩] (by intro c hc; cases hc)).1 pf hpf
  · exact (candidateSearch_excludes_specialisations (fun _ _ _ => true)
      [⟨0, 7, true, false, [(false, ⟨.primitive .float32, false, true⟩)], none⟩]
      [⟨1, 7, false, false, [(true, ⟨.primitive .float32, false, true⟩)], some 0⟩]
      7 [⟨.primitive .float32, false, false⟩]
      (by intro c hc; simp at hc; subst hc; simp)).2

/-! ## C3: idempotence of generic function specialisation

Embedding of `GenericFunctionResolver::getOrCreateSpecialisedFunction`
(`soul_ResolutionPass.h` lines 1661-1687).  `StructuralParser::cloneFunction`
(`soul_Parser.h:116-132`) appends the re-parsed clone to the parent module's
function list, and on failure of `resolveGenericFunctionTypes` the clone is
removed again by `removeItem`.  The specialised name
`"_" + name + "_specialised_" + call.getIDStringForArgumentTypes()` is
modelled structurally as the pair (base name, caller argument-type
signature); `resolveGenericFunctionTypes` (whose outcome depends only on the
generic function and the caller argument types encoded in that name) is
abstracted as a boolean function of the specialised name. -/

/-- A specialised-function name: the mangled string encodes the base name and
the caller argument-type signature. -/
structure SpecName where
  base : Nat
  argSig : List SoulType
  deriving DecidableEq, Repr

/-- A function as it sits in the parent scope's function list, with the
`orginalGenericFunction` back-link. -/
structure ScopeFn where
  fnId : Nat
  sname : SpecName
  originalGeneric : Option Nat
  deriving DecidableEq, Repr

def specKey (genericId : Nat) (nm : SpecName) (f : ScopeFn) : Bool :=
  decide (f.sname = nm ∧ f.originalGeneric = some genericId)

/-- Embedding of `getOrCreateSpecialisedFunction`
(`soul_ResolutionPass.h:1661-1687`): look for an existing function in the
parent scope with the specialised name and the same original-generic
back-link; if none, append a fresh clone (keyed by a fresh arena id), set its
name and back-link, and keep it only if the wildcard types resolve.  Returns
the new scope, the next fresh id, and the function bound (or `none`). -/
def getOrCreateSpecialisedFunction (resolveOk : SpecName → Bool) (genericId : Nat)
    (nm : SpecName) (scope : List ScopeFn) (fresh : Nat) :
    List ScopeFn × Nat × Option Nat :=
  match scope.find? (specKey genericId nm) with
  | some f => (scope, fresh, some f.fnId)
  | none =>
    if resolveOk nm then
      (scope ++ [⟨fresh, nm, some genericId⟩], fresh + 1, some fresh)
    else
      (scope, fresh + 1, none)

/-- Iterate `getOrCreateSpecialisedFunction` for a number of call sites that
all carry the same caller argument types, collecting the bound results. -/
def iterateGetOrCreate (resolveOk : SpecName → Bool) (genericId : Nat) (nm : SpecName) :
    Nat → List ScopeFn × Nat → (List ScopeFn × Nat) × List (Option Nat)
  | 0, s => (s, [])
  | n + 1, (scope, fresh) =>
    let r := getOrCreateSpecialisedFunction resolveOk genericId nm scope fresh
    let rest := iterateGetOrCreate resolveOk genericId nm n (r.1, r.2.1)
    (rest.1, r.2.2 :: rest.2)

theorem find?_append_left_none {p : ScopeFn → Bool} {l1 l2 : List ScopeFn}
    (h : ∀ f ∈ l1, p f = false) :
    (l1 ++ l2).find? p = l2.find? p := by
  induction l1 with
  | nil => simp
  | cons a l ih =>
    have ha := h a (by simp)
    simp only [List.cons_append, List.find?_cons, ha]
    exact ih (fun f hf => h f (by simp [hf]))

theorem iterateGetOrCreate_found (resolveOk : SpecName → Bool) (genericId : Nat)
    (nm : SpecName) (c : ScopeFn) :
    ∀ (n : Nat) (scope : List ScopeFn) (fresh : Nat),
      scope.find? (specKey genericId nm) = some c →
      iterateGetOrCreate resolveOk genericId nm n (scope, fresh)
        = ((scope, fresh), List.replicate n (some c.fnId)) := by
  intro n
  induction n with
  | zero => intro scope fresh _; rfl
  | succ n ih =>
    intro scope fresh hfind
    simp only [iterateGetOrCreate, getOrCreateSpecialisedFunction, hfind]
    rw [ih scope fresh hfind]
    rfl

/-- C3: from a scope with no specialisation of generic `g` for the caller
argument signature encoded in `nm`, any positive number of call sites with
that same signature produces exactly one specialised clone — the scope ends
as the old scope plus that single clone, every call binds the same function
id, and the keyed count in the final scope is one. -/
theorem genericSpecialisation_idempotent (resolveOk : SpecName → Bool)
    (genericId : Nat) (nm : SpecName) (scope : List ScopeFn) (fresh : Nat) (n : Nat)
    (hclean : ∀ f ∈ scope, specKey genericId nm f = false)
    (hok : resolveOk nm = true) :
    (iterateGetOrCreate resolveOk genericId nm (n + 1) (scope, fresh)).1.1
        = scope ++ [⟨fresh, nm, some genericId⟩]
    ∧ (iterateGetOrCreate resolveOk genericId nm (n + 1) (scope, fresh)).1.1.countP
        (specKey genericId nm) = 1
    ∧ ∀ res ∈ (iterateGetOrCreate resolveOk genericId nm (n + 1) (scope, fresh)).2,
        res = some fresh := by
  have hfind0 : scope.find? (specKey genericId nm) = none :=
    List.find?_eq_none.mpr (fun f hf => by simp [hclean f hf])
  have hkeyc : specKey genericId nm ⟨fresh, nm, some genericId⟩ = true := by
    simp [specKey]
  have hfind1 : (scope ++ [(⟨fresh, nm, some genericId⟩ : ScopeFn)]).find?
      (specKey genericId nm) = some ⟨fresh, nm, some genericId⟩ := by
    rw [find?_append_left_none hclean]
    simp [List.find?_cons, hkeyc]
  have hstep : iterateGetOrCreate resolveOk genericId nm (n + 1) (scope, fresh)
      = ((scope ++ [⟨fresh, nm, some genericId⟩], fresh + 1),
          some fresh :: List.replicate n (some fresh)) := by
    simp only [iterateGetOrCreate, getOrCreateSpecialisedFunction, hfind0, hok, if_true]
    rw [iterateGetOrCreate_found resolveOk genericId nm _ n _ (fresh + 1) hfind1]
  rw [hstep]
  refine ⟨rfl, ?_, ?_⟩
  · rw [List.countP_append]
    have h0 : scope.countP (specKey genericId nm) = 0 :=
      List.countP_eq_zero.mpr (fun f hf => by simp [hclean f hf])
    simp [h0, hkeyc]
  · intro res hres
    simp only [List.mem_cons, List.mem_replicate] at hres
    rcases hres with h | ⟨_, h⟩ <;> exact h

/-- Witness for C3: three calls to a generic `swap` with the same `float32`
argument signature, starting from a scope holding only the generic itself,
create exactly one specialisation and all bind it. -/
theorem genericSpecialisation_idempotent_witness :
    (iterateGetOrCreate (fun _ => true) 0 ⟨5, [⟨.primitive .float32, false, false⟩]⟩ 3
        ([⟨0, ⟨5, []⟩, none⟩], 1)).1.1
      = [⟨0, ⟨5, []⟩, none⟩, ⟨1, ⟨5, [⟨.primitive .float32, false, false⟩]⟩, some 0⟩]
    ∧ (iterateGetOrCreate (fun _ => true) 0 ⟨5, [⟨.primitive .float32, false, false⟩]⟩ 3
        ([⟨0, ⟨5, []⟩, none⟩], 1)).1.1.countP
        (specKey 0 ⟨5, [⟨.primitive .float32, false, false⟩]⟩) = 1
    ∧ ∀ res ∈ (iterateGetOrCreate (fun _ => true) 0
        ⟨5, [⟨.primitive .float32, false, false⟩]⟩ 3 ([⟨0, ⟨5, []⟩, none⟩], 1)).2,
        res = some 1 := by
  exact genericSpecialisation_idempotent (fun _ => true) 0
    ⟨5, [⟨.primitive .float32, false, false⟩]⟩ [⟨0, ⟨5, []⟩, none⟩] 1 2
    (by intro f hf; simp at hf; subst hf; simp [specKey]) rfl

/-! ## C6: constant folding of division and modulo by zero

Embedding of `ResolutionPass::ConstantFolder::visit (AST::BinaryOperator&)`
(`soul_ResolutionPass.h` lines 834-868) specialised to the case the claim is
about: both operands already folded to resolved integer constants of the
operand type, so the pass reaches `BinaryOp::apply` with an error callback
that throws at `b.context` — the binary operator node's own context, which
the parser fills with the operator token's location
(`soul_Parser.h:1263-1265`). -/

/-- A source location, as carried by `AST::Context`. -/
structure SrcLoc where
  line : Nat
  column : Nat
  deriving DecidableEq, Repr

inductive ArithOp where
  | add | subtract | multiply | divide | modulo
  deriving DecidableEq, Repr

inductive FoldErrKind where
  | divideByZero | moduloZero
  deriving DecidableEq, Repr

/-- Modelled from the spec: `BinaryOp::apply` (in `soul_Operators.h`, which is
not among the provided sources) evaluates a binary operator on two integer
constants with overflow-safe arithmetic, and reports division and modulo by
zero through its error callback (spec §4.4 sub-pass 6, §7 "constant
divide/modulo by zero"). -/
def applyIntBinaryOp (op : ArithOp) (lhs rhs : Int) : Except FoldErrKind Int :=
  match op with
  | .add => .ok (lhs + rhs)
  | .subtract => .ok (lhs - rhs)
  | .multiply => .ok (lhs * rhs)
  | .divide => if rhs = 0 then .error .divideByZero else .ok (lhs / rhs)
  | .modulo => if rhs = 0 then .error .moduloZero else .ok (lhs % rhs)

/-- A constant operand with the location of the expression it was folded
from. -/
structure ConstOperand where
  value : Int
  loc : SrcLoc
  deriving DecidableEq, Repr

/-- A `BinaryOperator` node whose two operands have been folded to integer
constants.  `context` is the node's own `AST::Context`: the parser creates
the node with the location of the operator token
(`soul_Parser.h:1263-1265`). -/
structure IntBinaryExpr where
  op : ArithOp
  lhs : ConstOperand
  rhs : ConstOperand
  context : SrcLoc
  deriving DecidableEq, Repr

/-- Embedding of the constant-both-sides arm of
`ConstantFolder::visit (AST::BinaryOperator&)`
(`soul_ResolutionPass.h:854-864`): run `BinaryOp::apply` with the callback
`[&] (CompileMessage message) { b.context.throwError (message); }`, so any
divide/modulo-by-zero message is thrown at `b.context`; otherwise the folded
constant replaces the node. -/
def foldBinaryOperator (b : IntBinaryExpr) : Except (FoldErrKind × SrcLoc) Int :=
  match applyIntBinaryOp b.op b.lhs.value b.rhs.value with
  | .error e => .error (e, b.context)
  | .ok v => .ok v

/-- Counterexample to C6 as stated: for `1 / 0` with the literal `0` at
column 13 and the `/` operator at column 11, the constant folder throws the
divide-by-zero error at the operator's context (column 11), not at the zero
operand's location. -/
theorem foldDivideByZero_location_counterexample :
    foldBinaryOperator ⟨.divide, ⟨1, ⟨1, 9⟩⟩, ⟨0, ⟨1, 13⟩⟩, ⟨1, 11⟩⟩
        = .error (.divideByZero, ⟨1, 11⟩)
    ∧ foldBinaryOperator ⟨.divide, ⟨1, ⟨1, 9⟩⟩, ⟨0, ⟨1, 13⟩⟩, ⟨1, 11⟩⟩
        ≠ .error (.divideByZero,
            (⟨.divide, ⟨1, ⟨1, 9⟩⟩, ⟨0, ⟨1, 13⟩⟩, ⟨1, 11⟩⟩ : IntBinaryExpr).rhs.loc) := by
  constructor
  · simp [foldBinaryOperator, applyIntBinaryOp]
  · simp [foldBinaryOperator, applyIntBinaryOp]

/-- C6 (amended): for every binary division or modulo whose operands folded to
integer constants, a zero right-hand constant makes compilation fail with a
divide-by-zero (resp. modulo-by-zero) error at the binary expression's own
context — the operator's location — and the folder never produces a value. -/
theorem foldDivModByZero_fails (b : IntBinaryExpr)
    (hop : b.op = .divide ∨ b.op = .modulo) (hz : b.rhs.value = 0) :
    foldBinaryOperator b
        = .error ((if b.op = .divide then .divideByZero else .moduloZero), b.context)
    ∧ ∀ v, foldBinaryOperator b ≠ .ok v := by
  rcases hop with h | h <;>
    · constructor
      · simp [foldBinaryOperator, applyIntBinaryOp, h, hz]
      · intro v
        simp [foldBinaryOperator, applyIntBinaryOp, h, hz]

/-- Witness for C6 (amended) at `7 % 0` with the `%` operator at column 4. -/
theorem foldDivModByZero_fails_witness :
    foldBinaryOperator ⟨.modulo, ⟨7, ⟨2, 2⟩⟩, ⟨0, ⟨2, 6⟩⟩, ⟨2, 4⟩⟩
        = .error (.moduloZero, ⟨2, 4⟩) := by
  have h := foldDivModByZero_fails ⟨.modulo, ⟨7, ⟨2, 2⟩⟩, ⟨0, ⟨2, 6⟩⟩, ⟨2, 4⟩⟩
    (Or.inr rfl) rfl
  simpa using h.1

/-! ## C9: post-resolution check of comparisons against bounded-int operands

Embedding of `SanityCheckPass::PostResolutionChecks::visit (AST::BinaryOperator&)`
(`soul_SanityCheckPass.h` lines 532-552). -/

inductive CmpOp where
  | lessThan | lessThanOrEqual | greaterThan | greaterThanOrEqual | equals | notEquals
  deriving DecidableEq, Repr

def evalCmp (op : CmpOp) (a b : Int) : Bool :=
  match op with
  | .lessThan => decide (a < b)
  | .lessThanOrEqual => decide (a ≤ b)
  | .greaterThan => decide (b < a)
  | .greaterThanOrEqual => decide (b ≤ a)
  | .equals => decide (a = b)
  | .notEquals => decide (a ≠ b)

/-- The binary operators seen by the post-resolution visit: a comparison, or
any other operator (for which `BinaryOp::isComparisonOperator` is false). -/
inductive SCOp where
  | cmp (op : CmpOp)
  | other
  deriving DecidableEq, Repr

def boundedLimit (t : SoulType) : Option Nat :=
  match t.category with
  | .wrap n => some n
  | .clamp n => some n
  | _ => none

/-- Modelled from the spec: `BinaryOp::getResultOfComparisonWithBoundedType`
(in `soul_Operators.h`, which is not among the provided sources).  A
bounded-int `wrap<N>`/`clamp<N>` holds the values `0 .. N-1` (spec §3,
glossary "Bounded int").  Comparing a constant (here on the left) against an
operand of bounded-int type returns 1 when the comparison holds for every
possible value of that operand, -1 when it holds for none, and 0 otherwise —
also 0 when the type is not a bounded int. -/
def comparisonResultConstLhs (op : CmpOp) (c : Int) (rhsType : SoulType) : Int :=
  match boundedLimit rhsType with
  | none => 0
  | some n =>
    if (List.range n).all (fun v => evalCmp op c v) then 1
    else if (List.range n).all (fun v => ! evalCmp op c v) then -1
    else 0

/-- Modelled from the spec, as `comparisonResultConstLhs` but with the
constant on the right. -/
def comparisonResultConstRhs (op : CmpOp) (lhsType : SoulType) (c : Int) : Int :=
  match boundedLimit lhsType with
  | none => 0
  | some n =>
    if (List.range n).all (fun v => evalCmp op v c) then 1
    else if (List.range n).all (fun v => ! evalCmp op v c) then -1
    else 0

/-- The fields of a resolved `AST::BinaryOperator` consulted by the
post-resolution comparison check: per operand, `getAsConstant()` (as an
optional integer value) and `getResultType()`. -/
structure ComparisonInfo where
  op : SCOp
  lhsConst : Option Int
  lhsType : SoulType
  rhsConst : Option Int
  rhsType : SoulType
  deriving DecidableEq, Repr

inductive CmpErr where
  | comparisonAlwaysTrue | comparisonAlwaysFalse
  deriving DecidableEq, Repr

/-- Embedding of `PostResolutionChecks::visit (AST::BinaryOperator&)`
(`soul_SanityCheckPass.h:532-552`): for a comparison operator, when exactly
one operand is a constant, ask `getResultOfComparisonWithBoundedType`; a
non-zero result raises comparison-always-true (positive) or
comparison-always-false (negative). -/
def checkComparisonWithBoundedType (b : ComparisonInfo) : Option CmpErr :=
  match b.op with
  | .other => none
  | .cmp op =>
    let result : Int :=
      match b.lhsConst, b.rhsConst with
      | some c, none => comparisonResultConstLhs op c b.rhsType
      | none, some c => comparisonResultConstRhs op b.lhsType c
      | _, _ => 0
    if result ≠ 0 then
      some (if result > 0 then .comparisonAlwaysTrue else .comparisonAlwaysFalse)
    else none

theorem comparisonResultConstRhs_spec (op : CmpOp) (t : SoulType) (c : Int) (n : Nat)
    (hn : boundedLimit t = some n) (hpos : 0 < n) :
    (comparisonResultConstRhs op t c = 1 ↔ ∀ v : Nat, v < n → evalCmp op v c = true)
    ∧ (comparisonResultConstRhs op t c = -1 ↔ ∀ v : Nat, v < n → evalCmp op v c = false) := by
  have hAll : (List.range n).all (fun v => evalCmp op v c) = true
      ↔ ∀ v : Nat, v < n → evalCmp op (v : Int) c = true := by
    rw [List.all_eq_true]
    exact ⟨fun h v hv => h v (List.mem_range.mpr hv),
      fun h v hv => h v (List.mem_range.mp hv)⟩
  have hNone : (List.range n).all (fun v => ! evalCmp op v c) = true
      ↔ ∀ v : Nat, v < n → evalCmp op (v : Int) c = false := by
    rw [List.all_eq_true]
    constructor
    · intro h v hv
      have := h v (List.mem_range.mpr hv)
      simpa using this
    · intro h v hv
      simp [h v (List.mem_range.mp hv)]
  simp only [comparisonResultConstRhs, hn]
  by_cases h1 : (List.range n).all (fun v => evalCmp op v c) = true
  · simp only [h1, if_true]
    constructor
    · exact ⟨fun _ => hAll.mp h1, fun _ => by trivial⟩
    · constructor
      · intro h; exact absurd h (by norm_num)
      · intro h
        have ht := hAll.mp h1 0 hpos
        have hf := h 0 hpos
        rw [ht] at hf
        exact absurd hf (by simp)
  · rw [if_neg h1]
    by_cases h2 : (List.range n).all (fun v => ! evalCmp op v c) = true
    · simp only [h2, if_true]
      constructor
      · constructor
        · intro h; exact absurd h (by norm_num)
        · intro h; exact absurd (hAll.mpr h) h1
      · exact ⟨fun _ => hNone.mp h2, fun _ => by trivial⟩
    · rw [if_neg h2]
      constructor
      · constructor
        · intro h; exact absurd h (by norm_num)
        · intro h; exact absurd (hAll.mpr h) h1
      · constructor
        · intro h; exact absurd h (by norm_num)
        · intro h; exact absurd (hNone.mpr h) h2

theorem comparisonResultConstLhs_spec (op : CmpOp) (c : Int) (t : SoulType) (n : Nat)
    (hn : boundedLimit t = some n) (hpos : 0 < n) :
    (comparisonResultConstLhs op c t = 1 ↔ ∀ v : Nat, v < n → evalCmp op c v = true)
    ∧ (comparisonResultConstLhs op c t = -1 ↔ ∀ v : Nat, v < n → evalCmp op c v = false) := by
  have hAll : (List.range n).all (fun v => evalCmp op c v) = true
      ↔ ∀ v : Nat, v < n → evalCmp op c (v : Int) = true := by
    rw [List.all_eq_true]
    exact ⟨fun h v hv => h v (List.mem_range.mpr hv),
      fun h v hv => h v (List.mem_range.mp hv)⟩
  have hNone : (List.range n).all (fun v => ! evalCmp op c v) = true
      ↔ ∀ v : Nat, v < n → evalCmp op c (v : Int) = false := by
    rw [List.all_eq_true]
    constructor
    · intro h v hv
      have := h v (List.mem_range.mpr hv)
      simpa using this
    · intro h v hv
      simp [h v (List.mem_range.mp hv)]
  simp only [comparisonResultConstLhs, hn]
  by_cases h1 : (List.range n).all (fun v => evalCmp op c v) = true
  · simp only [h1, if_true]
    constructor
    · exact ⟨fun _ => hAll.mp h1, fun _ => by trivial⟩
    · constructor
      · intro h; exact absurd h (by norm_num)
      · intro h
        have ht := hAll.mp h1 0 hpos
        have hf := h 0 hpos
        rw [ht] at hf
        exact absurd hf (by simp)
  · rw [if_neg h1]
    by_cases h2 : (List.range n).all (fun v => ! evalCmp op c v) = true
    · simp only [h2, if_true]
      constructor
      · constructor
        · intro h; exact absurd h (by norm_num)
        · intro h; exact absurd (hAll.mpr h) h1
      · exact ⟨fun _ => hNone.mp h2, fun _ => by trivial⟩
    · rw [if_neg h2]
      constructor
      · constructor
        · intro h; exact absurd h (by norm_num)
        · intro h; exact absurd (hAll.mpr h) h1
      · constructor
        · intro h; exact absurd h (by norm_num)
        · intro h; exact absurd (hNone.mpr h) h2

theorem comparisonResultConstRhs_trichotomy (op : CmpOp) (t : SoulType) (c : Int) :
    comparisonResultConstRhs op t c = 1 ∨ comparisonResultConstRhs op t c = -1
    ∨ comparisonResultConstRhs op t c = 0 := by
  unfold comparisonResultConstRhs
  rcases boundedLimit t with _ | m
  · simp
  · by_cases hA : (List.range m).all (fun v => evalCmp op v c) = true
    · left; simp [hA]
    · by_cases hB : (List.range m).all (fun v => ! evalCmp op v c) = true
      · right; left; simp [hA, hB]
      · right; right; simp [hA, hB]

theorem comparisonResultConstLhs_trichotomy (op : CmpOp) (c : Int) (t : SoulType) :
    comparisonResultConstLhs op c t = 1 ∨ comparisonResultConstLhs op c t = -1
    ∨ comparisonResultConstLhs op c t = 0 := by
  unfold comparisonResultConstLhs
  rcases boundedLimit t with _ | m
  · simp
  · by_cases hA : (List.range m).all (fun v => evalCmp op c v) = true
    · left; simp [hA]
    · by_cases hB : (List.range m).all (fun v => ! evalCmp op c v) = true
      · right; left; simp [hA, hB]
      · right; right; simp [hA, hB]

/-- C9: for a resolved comparison with exactly one compile-time-constant
operand whose other operand has a bounded-int type with `n` possible values,
the post-resolution check raises comparison-always-true exactly when the
comparison holds for every possible value of the bounded operand, raises
comparison-always-false exactly when it holds for none, and raises nothing
when the outcome is not statically forced; expressions where both or neither
operand is constant, or whose operator is not a comparison, are never
rejected by this check. -/
theorem comparisonWithBoundedType_check_characterisation
    (op : CmpOp) (c : Int) (t rt : SoulType) (n : Nat)
    (hn : boundedLimit t = some n) (hpos : 0 < n) :
    ((checkComparisonWithBoundedType ⟨.cmp op, none, t, some c, rt⟩
        = some .comparisonAlwaysTrue) ↔ (∀ v : Nat, v < n → evalCmp op v c = true))
    ∧ ((checkComparisonWithBoundedType ⟨.cmp op, none, t, some c, rt⟩
        = some .comparisonAlwaysFalse) ↔ (∀ v : Nat, v < n → evalCmp op v c = false))
    ∧ ((checkComparisonWithBoundedType ⟨.cmp op, none, t, some c, rt⟩ = none)
        ↔ (¬ (∀ v : Nat, v < n → evalCmp op v c = true)
            ∧ ¬ (∀ v : Nat, v < n → evalCmp op v c = false)))
    ∧ ((checkComparisonWithBoundedType ⟨.cmp op, some c, rt, none, t⟩
        = some .comparisonAlwaysTrue) ↔ (∀ v : Nat, v < n → evalCmp op c v = true))
    ∧ ((checkComparisonWithBoundedType ⟨.cmp op, some c, rt, none, t⟩
        = some .comparisonAlwaysFalse) ↔ (∀ v : Nat, v < n → evalCmp op c v = false))
    ∧ ((checkComparisonWithBoundedType ⟨.cmp op, some c, rt, none, t⟩ = none)
        ↔ (¬ (∀ v : Nat, v < n → evalCmp op c v = true)
            ∧ ¬ (∀ v : Nat, v < n → evalCmp op c v = false)))
    ∧ (∀ c2, checkComparisonWithBoundedType ⟨.cmp op, some c, rt, some c2, t⟩ = none)
    ∧ (checkComparisonWithBoundedType ⟨.cmp op, none, rt, none, t⟩ = none)
    ∧ (∀ lc rc lt2 rt2, checkComparisonWithBoundedType ⟨.other, lc, lt2, rc, rt2⟩ = none) := by
  have S := comparisonResultConstRhs_spec op t c n hn hpos
  have S2 := comparisonResultConstLhs_spec op c t n hn hpos
  have hredR : checkComparisonWithBoundedType ⟨.cmp op, none, t, some c, rt⟩
      = (if comparisonResultConstRhs op t c ≠ 0 then
          some (if comparisonResultConstRhs op t c > 0 then CmpErr.comparisonAlwaysTrue
                else CmpErr.comparisonAlwaysFalse)
        else none) := rfl
  have hredL : checkComparisonWithBoundedType ⟨.cmp op, some c, rt, none, t⟩
      = (if comparisonResultConstLhs op c t ≠ 0 then
          some (if comparisonResultConstLhs op c t > 0 then CmpErr.comparisonAlwaysTrue
                else CmpErr.comparisonAlwaysFalse)
        else none) := rfl
  have partR : ((checkComparisonWithBoundedType ⟨.cmp op, none, t, some c, rt⟩
        = some .comparisonAlwaysTrue) ↔ (∀ v : Nat, v < n → evalCmp op v c = true))
      ∧ ((checkComparisonWithBoundedType ⟨.cmp op, none, t, some c, rt⟩
        = some .comparisonAlwaysFalse) ↔ (∀ v : Nat, v < n → evalCmp op v c = false))
      ∧ ((checkComparisonWithBoundedType ⟨.cmp op, none, t, some c, rt⟩ = none)
        ↔ (¬ (∀ v : Nat, v < n → evalCmp op v c = true)
            ∧ ¬ (∀ v : Nat, v < n → evalCmp op v c = false))) := by
    rcases comparisonResultConstRhs_trichotomy op t c with h | h | h
    · rw [hredR, h, if_pos (by norm_num), if_pos (by norm_num)]
      refine ⟨⟨fun _ => S.1.mp h, fun _ => rfl⟩, ?_, ?_⟩
      · constructor
        · intro hx; exact absurd (Option.some.inj hx) (by decide)
        · intro hq; exact absurd (h.symm.trans (S.2.mpr hq)) (by norm_num)
      · constructor
        · intro hx; exact Option.noConfusion hx
        · rintro ⟨hp, _⟩; exact absurd (S.1.mp h) hp
    · rw [hredR, h, if_pos (by norm_num), if_neg (by norm_num)]
      refine ⟨?_, ⟨fun _ => S.2.mp h, fun _ => rfl⟩, ?_⟩
      · constructor
        · intro hx; exact absurd (Option.some.inj hx) (by decide)
        · intro hp; exact absurd (h.symm.trans (S.1.mpr hp)) (by norm_num)
      · constructor
        · intro hx; exact Option.noConfusion hx
        · rintro ⟨_, hq⟩; exact absurd (S.2.mp h) hq
    · rw [hredR, h, if_neg (by norm_num)]
      refine ⟨?_, ?_, ?_⟩
      · constructor
        · intro hx; exact Option.noConfusion hx
        · intro hp; exact absurd (h.symm.trans (S.1.mpr hp)) (by norm_num)
      · constructor
        · intro hx; exact Option.noConfusion hx
        · intro hq; exact absurd (h.symm.trans (S.2.mpr hq)) (by norm_num)
      · exact ⟨fun _ => ⟨fun hp => absurd (h.symm.trans (S.1.mpr hp)) (by norm_num),
          fun hq => absurd (h.symm.trans (S.2.mpr hq)) (by norm_num)⟩, fun _ => rfl⟩
  have partL : ((checkComparisonWithBoundedType ⟨.cmp op, some c, rt, none, t⟩
        = some .comparisonAlwaysTrue) ↔ (∀ v : Nat, v < n → evalCmp op c v = true))
      ∧ ((checkComparisonWithBoundedType ⟨.cmp op, some c, rt, none, t⟩
        = some .comparisonAlwaysFalse) ↔ (∀ v : Nat, v < n → evalCmp op c v = false))
      ∧ ((checkComparisonWithBoundedType ⟨.cmp op, some c, rt, none, t⟩ = none)
        ↔ (¬ (∀ v : Nat, v < n → evalCmp op c v = true)
            ∧ ¬ (∀ v : Nat, v < n → evalCmp op c v = false))) := by
    rcases comparisonResultConstLhs_trichotomy op c t with h | h | h
    · rw [hredL, h, if_pos (by norm_num), if_pos (by norm_num)]
      refine ⟨⟨fun _ => S2.1.mp h, fun _ => rfl⟩, ?_, ?_⟩
      · constructor
        · intro hx; exact absurd (Option.some.inj hx) (by decide)
        · intro hq; exact absurd (h.symm.trans (S2.2.mpr hq)) (by norm_num)
      · constructor
        · intro hx; exact Option.noConfusion hx
        · rintro ⟨hp, _⟩; exact absurd (S2.1.mp h) hp
    · rw [hredL, h, if_pos (by norm_num), if_neg (by norm_num)]
      refine ⟨?_, ⟨fun _ => S2.2.mp h, fun _ => rfl⟩, ?_⟩
      · constructor
        · intro hx; exact absurd (Option.some.inj hx) (by decide)
        · intro hp; exact absurd (h.symm.trans (S2.1.mpr hp)) (by norm_num)
      · constructor
        · intro hx; exact Option.noConfusion hx
        · rintro ⟨_, hq⟩; exact absurd (S2.2.mp h) hq
    · rw [hredL, h, if_neg (by norm_num)]
      refine ⟨?_, ?_, ?_⟩
      · constructor
        · intro hx; exact Option.noConfusion hx
        · intro hp; exact absurd (h.symm.trans (S2.1.mpr hp)) (by norm_num)
      · constructor
        · intro hx; exact Option.noConfusion hx
        · intro hq; exact absurd (h.symm.trans (S2.2.mpr hq)) (by norm_num)
      · exact ⟨fun _ => ⟨fun hp => absurd (h.symm.trans (S2.1.mpr hp)) (by norm_num),
          fun hq => absurd (h.symm.trans (S2.2.mpr hq)) (by norm_num)⟩, fun _ => rfl⟩
  exact ⟨partR.1, partR.2.1, partR.2.2, partL.1, partL.2.1, partL.2.2,
    fun _ => rfl, rfl, fun _ _ _ _ => rfl⟩

/-- Witness for C9: comparing a `wrap<4>` value (always in `0..3`) with the
constant `10` via `<` is flagged "comparison always true", while comparing it
with the constant `2` is not rejected. -/
theorem comparisonWithBoundedType_check_witness :
    checkComparisonWithBoundedType
        ⟨.cmp .lessThan, none, ⟨.wrap 4, false, false⟩, some 10,
          ⟨.primitive .int32, false, false⟩⟩ = some .comparisonAlwaysTrue
    ∧ checkComparisonWithBoundedType
        ⟨.cmp .lessThan, none, ⟨.wrap 4, false, false⟩, some 2,
          ⟨.primitive .int32, false, false⟩⟩ = none := by
  constructor
  · exact (comparisonWithBoundedType_check_characterisation .lessThan 10
      ⟨.wrap 4, false, false⟩ ⟨.primitive .int32, false, false⟩ 4 rfl (by decide)).1.mpr
      (by decide)
  · exact (comparisonWithBoundedType_check_characterisation .lessThan 2
      ⟨.wrap 4, false, false⟩ ⟨.primitive .int32, false, false⟩ 4 rfl (by decide)).2.2.1.mpr
      (by constructor
          · intro hall
            have := hall 3 (by decide)
            revert this
            decide
          · intro hnone
            have := hnone 0 (by decide)
            revert this
            decide)

/-! ## C4: terminator completeness of generated HEART functions

Embedding of the epilogue of `HEARTGenerator::generateFunction`
(`soul_HeartGenerator.h` lines 368-406) and of `createInitFunction`
(lines 345-359).  `FunctionBuilder::checkFunctionBlocksForTermination` and
`Optimisations::optimiseFunctionBlocks` live in files that are not among the
provided sources and are modelled from the spec (§3 "Block: ordered statement
list; must terminate with a branch, branch-if, or return"; §3 "simple
dead-block optimisation"; §8 "every block ends in exactly one terminator"). -/

/-- HEART statement variants (spec §3); only terminator structure matters
here, so the non-terminator variants are kept nominal. -/
inductive HeartStatement where
  | assignment
  | functionCall
  | writeStream
  | readStream
  | advanceClock
  | branch (target : Nat)
  | branchIf (whenTrue whenFalse : Nat)
  | returnStmt
  deriving DecidableEq, Repr

def HeartStatement.isTerminator : HeartStatement → Bool
  | .branch _ => true
  | .branchIf _ _ => true
  | .returnStmt => true
  | _ => false

structure HeartBlock where
  bid : Nat
  statements : List HeartStatement
  deriving DecidableEq, Repr

structure HeartFunction where
  blocks : List HeartBlock
  deriving DecidableEq, Repr

/-- Modelled from the spec: a block is well terminated when its statement
list ends in a terminator and contains no other terminator ("every block ends
in exactly one terminator (Branch, BranchIf, or Return)", spec §8). -/
def blockEndsInSingleTerminator (b : HeartBlock) : Bool :=
  match b.statements.reverse with
  | [] => false
  | s :: rest => s.isTerminator && rest.all (fun x => ! x.isTerminator)

/-- Modelled from the spec:
`FunctionBuilder::checkFunctionBlocksForTermination` (not among the provided
sources) reports whether every block of the function is well terminated. -/
def checkFunctionBlocksForTermination (f : HeartFunction) : Bool :=
  f.blocks.all blockEndsInSingleTerminator

/-- Branch targets of a block's statements. -/
def blockTargets (b : HeartBlock) : List Nat :=
  b.statements.foldr
    (fun s acc =>
      match s with
      | .branch t => t :: acc
      | .branchIf t1 t2 => t1 :: t2 :: acc
      | _ => acc) []

/-- One step of reachability: the given ids plus every branch target of a
block already reachable. -/
def reachStep (f : HeartFunction) (ids : List Nat) : List Nat :=
  (ids ++ (f.blocks.filter (fun b => ids.contains b.bid)).flatMap blockTargets).dedup

/-- Ids of the blocks reachable from the entry (first) block. -/
def reachableIds (f : HeartFunction) : List Nat :=
  Nat.iterate (reachStep f) f.blocks.length
    (match f.blocks with
     | [] => []
     | b :: _ => [b.bid])

/-- Modelled from the spec: `Optimisations::optimiseFunctionBlocks` (not
among the provided sources) performs the "simple dead-block optimisation"
(spec §3 lifecycles): blocks unreachable from the entry block are removed. -/
def eliminateDeadBlocks (f : HeartFunction) : HeartFunction :=
  ⟨f.blocks.filter (fun b => (reachableIds f).contains b.bid)⟩

inductive HeartGenErr where
  | notAllControlPathsReturnAValue
  deriving DecidableEq, Repr

/-- Embedding of the epilogue of `HEARTGenerator::generateFunction`
(`soul_HeartGenerator.h:389-399`) for a function with a body: if the
termination check fails, dead blocks are eliminated and the check is retried;
a second failure raises "not all control paths return a value". -/
def generateFunctionTermination (f : HeartFunction) : Except HeartGenErr HeartFunction :=
  if checkFunctionBlocksForTermination f then .ok f
  else
    let f2 := eliminateDeadBlocks f
    if checkFunctionBlocksForTermination f2 then .ok f2
    else .error .notAllControlPathsReturnAValue

/-- Modelled from the spec: `createInitFunction`
(`soul_HeartGenerator.h:345-359`) synthesises the state-variable
initialisation assignments through the `FunctionBuilder`, whose
`beginFunction`/`endFunction` bracket (not among the provided sources)
produces a single block closed by a return. -/
def createInitFunctionBlocks (assigns : List HeartStatement) : HeartFunction :=
  ⟨[⟨0, assigns ++ [.returnStmt]⟩]⟩

theorem blockEndsInSingleTerminator_iff (b : HeartBlock) :
    blockEndsInSingleTerminator b = true ↔
      (∃ s, b.statements.getLast? = some s ∧ s.isTerminator = true)
      ∧ b.statements.countP (fun s => s.isTerminator) = 1 := by
  have hcount : b.statements.countP (fun s => s.isTerminator)
      = b.statements.reverse.countP (fun s => s.isTerminator) :=
    ((List.reverse_perm b.statements).countP_eq _).symm
  have hlast : b.statements.getLast? = b.statements.reverse.head? :=
    (List.head?_reverse b.statements).symm
  rw [hcount, hlast]
  cases hrev : b.statements.reverse with
  | nil =>
    simp [blockEndsInSingleTerminator, hrev]
  | cons s rest =>
    rw [blockEndsInSingleTerminator, hrev]
    cases hs : s.isTerminator
    · simp [hs]
    · simp only [hs, Bool.true_and, List.head?_cons, List.countP_cons, hs, if_pos]
      constructor
      · intro hall
        refine ⟨⟨s, rfl, hs⟩, ?_⟩
        have h0 : rest.countP (fun s => s.isTerminator) = 0 :=
          List.countP_eq_zero.mpr (fun x hx => by
            have := List.all_eq_true.mp hall x hx
            simpa using this)
        simp [h0]
      · rintro ⟨_, hcnt⟩
        have h0 : rest.countP (fun s => s.isTerminator) = 0 := by omega
        rw [List.all_eq_true]
        intro x hx
        have := List.countP_eq_zero.mp h0 x hx
        simpa using this

/-- C4: every HEART function whose generation completes without error has
every block ending in exactly one terminator; when the post-lowering check
fails, dead-block elimination is run first and only a still-failing check
raises "not all control paths return a value"; and the synthesised init
function's single block always ends in exactly one terminator. -/
theorem heartFunction_termination_check (f : HeartFunction) :
    (∀ g, generateFunctionTermination f = .ok g →
       ∀ b ∈ g.blocks,
         (∃ s, b.statements.getLast? = some s ∧ s.isTerminator = true)
         ∧ b.statements.countP (fun s => s.isTerminator) = 1)
    ∧ (checkFunctionBlocksForTermination f = false →
        generateFunctionTermination f =
          (if checkFunctionBlocksForTermination (eliminateDeadBlocks f) then
            .ok (eliminateDeadBlocks f)
          else .error .notAllControlPathsReturnAValue))
    ∧ (checkFunctionBlocksForTermination f = true →
        generateFunctionTermination f = .ok f)
    ∧ (∀ assigns : List HeartStatement,
        (∀ s ∈ assigns, s.isTerminator = false) →
        ∀ b ∈ (createInitFunctionBlocks assigns).blocks,
          (∃ s, b.statements.getLast? = some s ∧ s.isTerminator = true)
          ∧ b.statements.countP (fun s => s.isTerminator) = 1) := by
  refine ⟨?_, ?_, ?_, ?_⟩
  · intro g hg b hb
    rw [← blockEndsInSingleTerminator_iff]
    by_cases hc : checkFunctionBlocksForTermination f = true
    · rw [generateFunctionTermination, if_pos hc] at hg
      cases hg
      exact List.all_eq_true.mp hc b hb
    · rw [generateFunctionTermination, if_neg hc] at hg
      by_cases hc2 : checkFunctionBlocksForTermination (eliminateDeadBlocks f) = true
      · rw [if_pos hc2] at hg
        cases hg
        exact List.all_eq_true.mp hc2 b hb
      · rw [if_neg hc2] at hg
        cases hg
  · intro hc
    rw [generateFunctionTermination, if_neg (by simp [hc])]
  · intro hc
    rw [generateFunctionTermination, if_pos hc]
  · intro assigns hass b hb
    simp only [createInitFunctionBlocks, List.mem_singleton] at hb
    subst hb
    rw [← blockEndsInSingleTerminator_iff]
    simp only [blockEndsInSingleTerminator, List.reverse_append, List.reverse_cons,
      List.reverse_nil, List.nil_append, List.singleton_append]
    rw [show HeartStatement.returnStmt.isTerminator = true from rfl, Bool.true_and,
      List.all_eq_true]
    intro x hx
    have := hass x (by simpa using hx)
    simp [this]

/-- Witness for C4: a two-block function whose entry branches to a returning
block passes; a function whose entry lacks a terminator but whose only
unterminated block is dead passes after elimination; the init function with
two plain assignments is well terminated. -/
theorem heartFunction_termination_check_witness :
    generateFunctionTermination
        ⟨[⟨0, [.assignment, .branch 1]⟩, ⟨1, [.returnStmt]⟩]⟩
      = .ok ⟨[⟨0, [.assignment, .branch 1]⟩, ⟨1, [.returnStmt]⟩]⟩
    ∧ (∀ b ∈ (createInitFunctionBlocks [.assignment, .assignment]).blocks,
        (∃ s, b.statements.getLast? = some s ∧ s.isTerminator = true)
        ∧ b.statements.countP (fun s => s.isTerminator) = 1) := by
  constructor
  · exact (heartFunction_termination_check
      ⟨[⟨0, [.assignment, .branch 1]⟩, ⟨1, [.returnStmt]⟩]⟩).2.2.1 (by decide)
  · exact (heartFunction_termination_check
      ⟨[⟨0, [.assignment, .branch 1]⟩, ⟨1, [.returnStmt]⟩]⟩).2.2.2
      [.assignment, .assignment] (by decide)

/-! ## C1: overload-resolution binding rules

Embedding of `ResolutionPass::FunctionResolver::visit (AST::CallOrCast&)`
(`soul_ResolutionPass.h` lines 1218-1342) from the point where the candidate
list has been computed by `findAllPossibleFunctions`.  The generic-function
resolution performed by `createCallToGenericFunction` (overridden by
`GenericFunctionResolver`) is abstracted as `resolveGeneric`, which yields
the specialised function's id or `none`; in the base `FunctionResolver` it is
the constant `none` and `canResolveGenerics` is `false`.  The specific
messages thrown inside the no-match block (lines 1322-1339, including the
per-argument cast errors of `expectSilentCastPossible`, which can only run
when `totalMatches == 1` and therefore `matchingGenerics.size() <= 1`, so the
block raises in exactly the same situations) are collapsed into
`noMatchForFunctionCall`. -/

inductive CallErr where
  | cannotCallRunFunction
  | unknownFunction
  | noMatchForFunctionCall
  | ambiguousFunctionCall
  deriving DecidableEq, Repr

inductive BoundTo where
  | functionCall (fnId : Nat)
  | specialisedCall (fnId : Nat)
  deriving DecidableEq, Repr

inductive CallOutcome where
  | bound (b : BoundTo)
  | unresolved
  | raised (e : CallErr)
  deriving DecidableEq, Repr

/-- Embedding of `FunctionResolver::resolveFunction`
(`soul_ResolutionPass.h:1382-1391`): calling a run function throws; a generic
function goes through `createCallToGenericFunction` (abstracted by
`resolveGeneric`, `none` meaning it could not be resolved); otherwise an
`AST::FunctionCall` to the function is produced. -/
def resolveFunctionModel (resolveGeneric : PossibleFunction → Option Nat)
    (f : PossibleFunction) : Except CallErr (Option BoundTo) :=
  if f.fn.isRunFn then .error .cannotCallRunFunction
  else if f.fn.isGenericFn then .ok ((resolveGeneric f).map .specialisedCall)
  else .ok (some (.functionCall f.fn.fnId))

/-- Embedding of the matching-generics loop
(`soul_ResolutionPass.h:1286-1297`): candidates that are possible and require
generics are resolved with errors ignored; a failed resolution in a resolver
that cannot resolve generics aborts the visit ("return call", modelled as
`none`). -/
def collectMatchingGenerics (resolveGeneric : PossibleFunction → Option Nat)
    (canResolveGenerics : Bool) :
    List PossibleFunction → Except CallErr (Option (List BoundTo))
  | [] => .ok (some [])
  | f :: fs =>
    if ! f.isImpossible && f.requiresGeneric then
      match resolveFunctionModel resolveGeneric f with
      | .error e => .error e
      | .ok (some b) =>
        match collectMatchingGenerics resolveGeneric canResolveGenerics fs with
        | .error e => .error e
        | .ok none => .ok none
        | .ok (some bs) => .ok (some (b :: bs))
      | .ok none =>
        if ! canResolveGenerics then .ok none
        else collectMatchingGenerics resolveGeneric canResolveGenerics fs
    else collectMatchingGenerics resolveGeneric canResolveGenerics fs

/-- The phases of `visit (AST::CallOrCast&)` after the one-exact-match rule:
the matching-generics loop, the single-generic binding, and the error block
run when `ignoreErrors` is false (`soul_ResolutionPass.h:1286-1336`),
followed by the fall-through `++numFails; return call`. -/
def resolveCallGenericPhase (resolveGeneric : PossibleFunction → Option Nat)
    (canResolveGenerics ignoreErrors : Bool)
    (possibles : List PossibleFunction) : CallOutcome :=
  match collectMatchingGenerics resolveGeneric canResolveGenerics possibles with
  | .error e => .raised e
  | .ok none => .unresolved
  | .ok (some mgs) =>
    match mgs with
    | [b] => .bound b
    | _ =>
      if ignoreErrors then .unresolved
      else
        let totalMatches := possibles.length
        if totalMatches = 0 then .raised .unknownFunction
        else
          let exactMatches := possibles.countP (fun f => f.isExactMatch)
          let possibleWithCast := possibles.countP (fun f => f.requiresCast && ! f.isImpossible)
          if exactMatches + possibleWithCast = 0 ∧ (totalMatches = 0 ∨ mgs.length ≤ 1) then
            .raised .noMatchForFunctionCall
          else if 1 < totalMatches ∨ 1 < mgs.length then
            .raised .ambiguousFunctionCall
          else .unresolved

/-- The one-exact-match rule (`soul_ResolutionPass.h:1266-1284`): if exactly
one candidate is an exact match, bind to the first exact match even when
other candidates would need casts. -/
def resolveCallExactPhase (resolveGeneric : PossibleFunction → Option Nat)
    (canResolveGenerics ignoreErrors : Bool)
    (possibles : List PossibleFunction) : CallOutcome :=
  if possibles.countP (fun f => f.isExactMatch) = 1 then
    match possibles.find? (fun f => f.isExactMatch) with
    | some f =>
      match resolveFunctionModel resolveGeneric f with
      | .error e => .raised e
      | .ok (some b) => .bound b
      | .ok none => .unresolved
    | none => .unresolved
  else resolveCallGenericPhase resolveGeneric canResolveGenerics ignoreErrors possibles

/-- Embedding of the resolution rules of `visit (AST::CallOrCast&)` applied
to the computed candidate list (`soul_ResolutionPass.h:1253-1341`): if
exactly one candidate was found and it is not impossible, bind it (possibly
via a cast); otherwise the one-exact-match rule, the generics phase and the
error block apply in order. -/
def resolveCallOrCast (resolveGeneric : PossibleFunction → Option Nat)
    (canResolveGenerics ignoreErrors : Bool)
    (possibles : List PossibleFunction) : CallOutcome :=
  match possibles with
  | [f] =>
    if ! f.isImpossible then
      match resolveFunctionModel resolveGeneric f with
      | .error e => .raised e
      | .ok (some b) => .bound b
      | .ok none => .unresolved
    else resolveCallExactPhase resolveGeneric canResolveGenerics ignoreErrors possibles
  | _ => resolveCallExactPhase resolveGeneric canResolveGenerics ignoreErrors possibles

theorem find?_of_countP_one {p : PossibleFunction → Bool}
    (l : List PossibleFunction) (g : PossibleFunction)
    (hmem : g ∈ l) (hg : p g = true) (hcount : l.countP p = 1) :
    l.find? p = some g := by
  induction l with
  | nil => cases hmem
  | cons x xs ih =>
    rw [List.countP_cons] at hcount
    cases hx : p x
    · simp only [List.find?_cons, hx]
      rcases List.mem_cons.mp hmem with rfl | hmem2
      · rw [hx] at hg; cases hg
      · exact ih hmem2 (by simpa [hx] using hcount)
    · have hone : (if p x = true then 1 else 0) = 1 := by simp [hx]
      rw [hone] at hcount
      have hxs : xs.countP p = 0 := by omega
      have heq : g = x := by
        rcases List.mem_cons.mp hmem with rfl | hmem2
        · rfl
        · exact absurd hg (List.countP_eq_zero.mp hxs g hmem2)
      subst heq
      simp [List.find?_cons, hx]

/-- C1 (amended): every candidate is classified by the `PossibleFunction`
constructor as exact match, requires-cast, requires-generic or impossible;
if exactly one candidate function was found and it is not impossible, the
call binds to it (possibly via a cast); otherwise, if exactly one exact match
exists among the candidates, the call binds to that exact match. -/
theorem overloadResolution_binding_rules
    (resolveGeneric : PossibleFunction → Option Nat)
    (canResolveGenerics ignoreErrors : Bool)
    (canPass : SoulType → SoulType → Bool → Bool) :
    (∀ (f : FnDecl) (argTypes : List SoulType),
        (mkPossibleFunction canPass f argTypes).isExactMatch = true
        ∨ (mkPossibleFunction canPass f argTypes).requiresCast = true
        ∨ (mkPossibleFunction canPass f argTypes).requiresGeneric = true
        ∨ (mkPossibleFunction canPass f argTypes).isImpossible = true)
    ∧ (∀ g : PossibleFunction,
        g.isImpossible = false → g.fn.isRunFn = false → g.fn.isGenericFn = false →
        resolveCallOrCast resolveGeneric canResolveGenerics ignoreErrors [g]
          = .bound (.functionCall g.fn.fnId))
    ∧ (∀ (possibles : List PossibleFunction) (g : PossibleFunction),
        possibles.countP (fun f => f.isExactMatch) = 1 →
        g ∈ possibles → g.isExactMatch = true →
        g.fn.isRunFn = false → g.fn.isGenericFn = false →
        resolveCallOrCast resolveGeneric canResolveGenerics ignoreErrors possibles
          = .bound (.functionCall g.fn.fnId)) := by
  refine ⟨?_, ?_, ?_⟩
  · intro f argTypes
    by_cases h1 : (mkPossibleFunction canPass f argTypes).isImpossible = true
    · exact Or.inr (Or.inr (Or.inr h1))
    by_cases h2 : (mkPossibleFunction canPass f argTypes).requiresCast = true
    · exact Or.inr (Or.inl h2)
    by_cases h3 : (mkPossibleFunction canPass f argTypes).requiresGeneric = true
    · exact Or.inr (Or.inr (Or.inl h3))
    · left
      simp only [PossibleFunction.isExactMatch]
      simp only [Bool.not_eq_true] at h1 h2 h3
      simp [h1, h2, h3]
  · intro g himp hrun hgen
    simp only [resolveCallOrCast, himp, Bool.not_false, if_true]
    simp [resolveFunctionModel, hrun, hgen]
  · intro possibles g hcount hmem hexact hrun hgen
    have hbind :
        (match resolveFunctionModel resolveGeneric g with
          | .error e => CallOutcome.raised e
          | .ok (some b) => .bound b
          | .ok none => .unresolved) = .bound (.functionCall g.fn.fnId) := by
      simp [resolveFunctionModel, hrun, hgen]
    match possibles, hmem with
    | [f], hmem =>
      have hgf : g = f := by simpa using hmem
      subst hgf
      have himp : g.isImpossible = false := by
        cases h : g.isImpossible
        · rfl
        · simp [PossibleFunction.isExactMatch, h] at hexact
      simp only [resolveCallOrCast, himp, Bool.not_false, if_true]
      exact hbind
    | f1 :: f2 :: rest, hmem =>
      have hfind := find?_of_countP_one (f1 :: f2 :: rest) g hmem hexact hcount
      simp only [resolveCallOrCast, resolveCallExactPhase, hcount, if_pos, hfind]
      exact hbind

/-- Concrete types and argument list used by the C1 counterexample and
witness: a one-argument call with an `int32` argument, one candidate taking
`bool` (impossible: `int32` cannot pass to `bool` at all) and one taking
`float64` (possible via a silent cast). -/
def canPassConcrete : SoulType → SoulType → Bool → Bool :=
  fun target source mustBeExact =>
    if mustBeExact then target == source
    else target == source
      || (target == ⟨.primitive .float64, false, false⟩
          && source == ⟨.primitive .int32, false, false⟩)

def impossibleCandidateFn : FnDecl :=
  ⟨10, 3, false, false, [(true, ⟨.primitive .bool_, false, false⟩)], none⟩

def castCandidateFn : FnDecl :=
  ⟨11, 3, false, false, [(true, ⟨.primitive .float64, false, false⟩)], none⟩

/-- Counterexample to C1 as stated: with the candidates found for a call
`f(1)` being one impossible overload `f(bool)` and one cast-requiring
overload `f(float64)`, exactly one non-impossible candidate exists, yet the
resolver (final iteration, errors not ignored) raises an
ambiguous-function-call error instead of binding to it. -/
theorem overloadResolution_oneNonImpossible_counterexample :
    (findAllPossibleFunctions canPassConcrete [impossibleCandidateFn, castCandidateFn]
        3 [⟨.primitive .int32, false, false⟩]).countP (fun g => ! g.isImpossible) = 1
    ∧ resolveCallOrCast (fun _ => none) false false
        (findAllPossibleFunctions canPassConcrete [impossibleCandidateFn, castCandidateFn]
          3 [⟨.primitive .int32, false, false⟩])
        = .raised .ambiguousFunctionCall
    ∧ ∀ b, resolveCallOrCast (fun _ => none) false false
        (findAllPossibleFunctions canPassConcrete [impossibleCandidateFn, castCandidateFn]
          3 [⟨.primitive .int32, false, false⟩])
        ≠ .bound b := by
  refine ⟨by decide, by decide, ?_⟩
  intro b h
  rw [show resolveCallOrCast (fun _ => none) false false
      (findAllPossibleFunctions canPassConcrete [impossibleCandidateFn, castCandidateFn]
        3 [⟨.primitive .int32, false, false⟩])
      = .raised .ambiguousFunctionCall from by decide] at h
  cases h

/-- Witness for C1 (amended): the single cast-requiring candidate `f(float64)`
alone binds (rule 1), and with both `f(float64)` and an exact `f(int32)` in
scope the exact match wins (rule 2). -/
theorem overloadResolution_binding_rules_witness :
    resolveCallOrCast (fun _ => none) false false
        (findAllPossibleFunctions canPassConcrete [castCandidateFn]
          3 [⟨.primitive .int32, false, false⟩])
      = .bound (.functionCall 11)
    ∧ resolveCallOrCast (fun _ => none) false false
        (findAllPossibleFunctions canPassConcrete
          [castCandidateFn, ⟨12, 3, false, false, [(true, ⟨.primitive .int32, false, false⟩)], none⟩]
          3 [⟨.primitive .int32, false, false⟩])
      = .bound (.functionCall 12) := by
  constructor
  · exact (overloadResolution_binding_rules (fun _ => none) false false canPassConcrete).2.1
      (mkPossibleFunction canPassConcrete castCandidateFn [⟨.primitive .int32, false, false⟩])
      (by decide) (by decide) (by decide)
  · exact (overloadResolution_binding_rules (fun _ => none) false false canPassConcrete).2.2
      (findAllPossibleFunctions canPassConcrete
        [castCandidateFn, ⟨12, 3, false, false, [(true, ⟨.primitive .int32, false, false⟩)], none⟩]
        3 [⟨.primitive .int32, false, false⟩])
      (mkPossibleFunction canPassConcrete
        ⟨12, 3, false, false, [(true, ⟨.primitive .int32, false, false⟩)], none⟩
        [⟨.primitive .int32, false, false⟩])
      (by decide) (by decide) (by decide) (by decide) (by decide)

/-! ## C2: the resolver's outer fixed-point loop

Embedding of `ResolutionPass::run` (`soul_ResolutionPass.h` lines 63-115).
`step` abstracts one full iteration of the loop body: the fixed sub-pass
sequence (QualifiedIdentifierResolver, TypeResolver, ConvertStreamOperations,
use-count rebuilds, FunctionResolver, ConstantFolder, the conditional
GenericFunctionResolver, and the recursive resolution of sub-modules, lines
72-91), returning the rewritten module state together with the iteration's
accumulated `RunStats`.  `rerun` abstracts the final sequence of sub-passes
re-run with `ignoreErrors = false` (lines 102-106).  `μ` is a termination
measure for the abstracted module state (spec §5 "Iteration bound": the loop
is monotonic — an iteration that replaces at least one node strictly
decreases the remaining work). -/

/-- The per-run counters of `ResolutionPass::RunStats`. -/
structure RunStats where
  numFailures : Nat
  numReplaced : Nat
  deriving DecidableEq, Repr

/-- How the outer loop ended: `numFailures == 0` (break), `numReplaced == 0`
with errors ignored (early `return runStats`), or `numReplaced == 0` with the
final `ignoreErrors = false` re-run before breaking. -/
inductive ResolutionStop where
  | noFailures
  | earlyReturn
  | finalRerun
  deriving DecidableEq, Repr

structure DriverResult (S : Type) where
  finalState : S
  trace : List RunStats
  stop : ResolutionStop

/-- Embedding of the `for (;;)` loop of `ResolutionPass::run`
(`soul_ResolutionPass.h:70-110`): run one full iteration; stop when it
reports no failures; when it reports failures but no replacements, either
return early (errors ignored) or re-run the sub-passes with errors enabled
and stop; otherwise iterate again.  Total by the measure `μ`. -/
def resolutionRun {S : Type} (step : S → S × RunStats) (rerun : S → S) (μ : S → Nat)
    (hdec : ∀ s, 0 < (step s).2.numReplaced → μ (step s).1 < μ s)
    (ignoreTypeAndConstantErrors : Bool) (s : S) : DriverResult S :=
  if h0 : (step s).2.numFailures = 0 then
    ⟨(step s).1, [(step s).2], .noFailures⟩
  else if h1 : (step s).2.numReplaced = 0 then
    if ignoreTypeAndConstantErrors then
      ⟨(step s).1, [(step s).2], .earlyReturn⟩
    else
      ⟨rerun (step s).1, [(step s).2], .finalRerun⟩
  else
    let r := resolutionRun step rerun μ hdec ignoreTypeAndConstantErrors (step s).1
    ⟨r.finalState, (step s).2 :: r.trace, r.stop⟩
termination_by μ s
decreasing_by exact hdec s (Nat.pos_of_ne_zero h1)

theorem resolutionRun_eq_noFailures {S : Type} (step : S → S × RunStats) (rerun : S → S)
    (μ : S → Nat) (hdec : ∀ s, 0 < (step s).2.numReplaced → μ (step s).1 < μ s)
    (ig : Bool) (s : S) (h0 : (step s).2.numFailures = 0) :
    resolutionRun step rerun μ hdec ig s = ⟨(step s).1, [(step s).2], .noFailures⟩ := by
  rw [resolutionRun]
  simp [h0]

theorem resolutionRun_eq_stalled {S : Type} (step : S → S × RunStats) (rerun : S → S)
    (μ : S → Nat) (hdec : ∀ s, 0 < (step s).2.numReplaced → μ (step s).1 < μ s)
    (ig : Bool) (s : S) (h0 : (step s).2.numFailures ≠ 0)
    (h1 : (step s).2.numReplaced = 0) :
    resolutionRun step rerun μ hdec ig s =
      if ig then ⟨(step s).1, [(step s).2], .earlyReturn⟩
      else ⟨rerun (step s).1, [(step s).2], .finalRerun⟩ := by
  rw [resolutionRun]
  simp [h0, h1]

theorem resolutionRun_eq_progress {S : Type} (step : S → S × RunStats) (rerun : S → S)
    (μ : S → Nat) (hdec : ∀ s, 0 < (step s).2.numReplaced → μ (step s).1 < μ s)
    (ig : Bool) (s : S) (h0 : (step s).2.numFailures ≠ 0)
    (h1 : (step s).2.numReplaced ≠ 0) :
    resolutionRun step rerun μ hdec ig s =
      ⟨(resolutionRun step rerun μ hdec ig (step s).1).finalState,
       (step s).2 :: (resolutionRun step rerun μ hdec ig (step s).1).trace,
       (resolutionRun step rerun μ hdec ig (step s).1).stop⟩ := by
  rw [resolutionRun]
  simp [h0, h1]

/-- C2: the outer loop (a total function, so it terminates for every module
state under the monotonicity measure): its iteration trace is nonempty, every
iteration that is not the last both replaced at least one node and still had
failures, the last iteration had no failures or no replacements, and the
stopping mode is exactly as the source dictates — in particular the
`ignoreErrors = false` re-run happens precisely when the last iteration still
had failures, replaced nothing, and type/constant errors were not being
ignored. -/
theorem resolver_fixedPoint_loop {S : Type} (step : S → S × RunStats) (rerun : S → S)
    (μ : S → Nat) (hdec : ∀ s, 0 < (step s).2.numReplaced → μ (step s).1 < μ s)
    (ig : Bool) (s : S) :
    (resolutionRun step rerun μ hdec ig s).trace ≠ []
    ∧ (∀ (pre : List RunStats) (mid : RunStats) (suf : List RunStats),
        (resolutionRun step rerun μ hdec ig s).trace = pre ++ mid :: suf → suf ≠ [] →
        0 < mid.numReplaced ∧ 0 < mid.numFailures)
    ∧ (∀ last, (resolutionRun step rerun μ hdec ig s).trace.getLast? = some last →
        (last.numFailures = 0 ∨ last.numReplaced = 0)
        ∧ ((resolutionRun step rerun μ hdec ig s).stop = .noFailures
            ↔ last.numFailures = 0)
        ∧ ((resolutionRun step rerun μ hdec ig s).stop = .earlyReturn
            ↔ (last.numFailures ≠ 0 ∧ last.numReplaced = 0 ∧ ig = true))
        ∧ ((resolutionRun step rerun μ hdec ig s).stop = .finalRerun
            ↔ (last.numFailures ≠ 0 ∧ last.numReplaced = 0 ∧ ig = false))
        ∧ ((resolutionRun step rerun μ hdec ig s).stop = .finalRerun →
            ∃ s2, (resolutionRun step rerun μ hdec ig s).finalState = rerun s2)) := by
  have singletonSuffix : ∀ (x : RunStats) (pre : List RunStats) (mid : RunStats)
      (suf : List RunStats), [x] = pre ++ mid :: suf → suf = [] := by
    intro x pre mid suf h
    have hlen := congrArg List.length h
    simp [List.length_append] at hlen
    exact List.length_eq_zero.mp (by omega)
  have main : ∀ (n : Nat) (s : S), μ s < n →
      (resolutionRun step rerun μ hdec ig s).trace ≠ []
      ∧ (∀ (pre : List RunStats) (mid : RunStats) (suf : List RunStats),
          (resolutionRun step rerun μ hdec ig s).trace = pre ++ mid :: suf → suf ≠ [] →
          0 < mid.numReplaced ∧ 0 < mid.numFailures)
      ∧ (∀ last, (resolutionRun step rerun μ hdec ig s).trace.getLast? = some last →
          (last.numFailures = 0 ∨ last.numReplaced = 0)
          ∧ ((resolutionRun step rerun μ hdec ig s).stop = .noFailures
              ↔ last.numFailures = 0)
          ∧ ((resolutionRun step rerun μ hdec ig s).stop = .earlyReturn
              ↔ (last.numFailures ≠ 0 ∧ last.numReplaced = 0 ∧ ig = true))
          ∧ ((resolutionRun step rerun μ hdec ig s).stop = .finalRerun
              ↔ (last.numFailures ≠ 0 ∧ last.numReplaced = 0 ∧ ig = false))
          ∧ ((resolutionRun step rerun μ hdec ig s).stop = .finalRerun →
              ∃ s2, (resolutionRun step rerun μ hdec ig s).finalState = rerun s2)) := by
    intro n
    induction n with
    | zero => intro s hs; exact absurd hs (Nat.not_lt_zero _)
    | succ n ih =>
      intro s hs
      by_cases h0 : (step s).2.numFailures = 0
      · rw [resolutionRun_eq_noFailures step rerun μ hdec ig s h0]
        refine ⟨by simp, ?_, ?_⟩
        · intro pre mid suf htr hsuf
          exact absurd (singletonSuffix _ _ _ _ htr) hsuf
        · intro last hlast
          have hl : (step s).2 = last := by simpa using hlast
          subst hl
          refine ⟨Or.inl h0, by simp [h0], ?_, ?_, by intro h; cases h⟩
          · constructor
            · intro h; cases h
            · rintro ⟨hf, _, _⟩; exact absurd h0 hf
          · constructor
            · intro h; cases h
            · rintro ⟨hf, _, _⟩; exact absurd h0 hf
      · by_cases h1 : (step s).2.numReplaced = 0
        · rw [resolutionRun_eq_stalled step rerun μ hdec ig s h0 h1]
          cases hig : ig
          · rw [if_neg (by simp)]
            refine ⟨by simp, ?_, ?_⟩
            · intro pre mid suf htr hsuf
              exact absurd (singletonSuffix _ _ _ _ htr) hsuf
            · intro last hlast
              have hl : (step s).2 = last := by simpa using hlast
              subst hl
              refine ⟨Or.inr h1, ?_, ?_, ?_, ?_⟩
              · constructor
                · intro h; cases h
                · intro hf; exact absurd hf h0
              · constructor
                · intro h; cases h
                · rintro ⟨_, _, hg⟩; cases hg
              · exact ⟨fun _ => ⟨h0, h1, rfl⟩, fun _ => rfl⟩
              · intro _
                exact ⟨(step s).1, rfl⟩
          · rw [if_pos rfl]
            refine ⟨by simp, ?_, ?_⟩
            · intro pre mid suf htr hsuf
              exact absurd (singletonSuffix _ _ _ _ htr) hsuf
            · intro last hlast
              have hl : (step s).2 = last := by simpa using hlast
              subst hl
              refine ⟨Or.inr h1, ?_, ?_, ?_, ?_⟩
              · constructor
                · intro h; cases h
                · intro hf; exact absurd hf h0
              · exact ⟨fun _ => ⟨h0, h1, rfl⟩, fun _ => rfl⟩
              · constructor
                · intro h; cases h
                · rintro ⟨_, _, hg⟩; cases hg
              · intro h; cases h
        · have hrec := ih (step s).1 (by
            have := hdec s (Nat.pos_of_ne_zero h1)
            omega)
          rw [resolutionRun_eq_progress step rerun μ hdec ig s h0 h1]
          obtain ⟨hne, hmid, hlastP⟩ := hrec
          refine ⟨by simp, ?_, ?_⟩
          · intro pre mid suf htr hsuf
            cases pre with
            | nil =>
              simp only [List.nil_append, List.cons.injEq] at htr
              obtain ⟨rfl, htr2⟩ := htr
              constructor
              · exact Nat.pos_of_ne_zero h1
              · exact Nat.pos_of_ne_zero h0
            | cons a l =>
              simp only [List.cons_append, List.cons.injEq] at htr
              exact hmid l mid suf htr.2 hsuf
          · intro last hlast
            have hlast2 : (resolutionRun step rerun μ hdec ig (step s).1).trace.getLast?
                = some last := by
              have hlast3 : ((step s).2
                  :: (resolutionRun step rerun μ hdec ig (step s).1).trace).getLast?
                  = some last := hlast
              rcases hrt : (resolutionRun step rerun μ hdec ig (step s).1).trace with _ | ⟨a, l⟩
              · exact absurd hrt hne
              · rw [hrt, List.getLast?_cons_cons] at hlast3
                exact hlast3
            exact hlastP last hlast2
  exact main (μ s + 1) s (Nat.lt_succ_self _)

/-- A concrete iteration step for the witness: state counts the unresolved
nodes; each iteration resolves one and reports the rest as failures. -/
def countdownStep (s : Nat) : Nat × RunStats :=
  if s = 0 then (0, ⟨0, 0⟩) else (s - 1, ⟨s - 1, 1⟩)

theorem countdownStep_dec :
    ∀ s, 0 < (countdownStep s).2.numReplaced → (fun s => s) (countdownStep s).1 < (fun s => s) s := by
  intro s h
  by_cases hz : s = 0
  · subst hz
    simp [countdownStep] at h
  · simp only [countdownStep, if_neg hz]
    show s - 1 < s
    omega

/-- Witness for C2 at a concrete three-node module state: the driver
terminates with a nonempty trace. -/
theorem resolver_fixedPoint_loop_witness :
    (resolutionRun countdownStep id (fun s => s) countdownStep_dec false 3).trace ≠ [] :=
  (resolver_fixedPoint_loop countdownStep id (fun s => s) countdownStep_dec false 3).1

end Soul
